import Mathlib

/-
Verification development for the ExcelToDB conversion script.

The script (src/ExcelToDB.py) is embedded shallowly:

* pandas DataFrames are modelled column-major as association lists
  `List (String × List Cell)` (ordered columns, each carrying its cells);
* machine floats are idealized as exact rationals `ℚ`; every rounding
  function of the source (Python `round`, which is round-half-to-even,
  numpy `.round`, `f"{x:.kf}"` formatting) is modelled with that exact
  semantics on `ℚ`;
* missing values (NaN / None) are an explicit `Cell.null` constructor,
  and header cells are `Option String` (`none` = NaN);
* the Python `f"{header}_{i}"` interpolation is modelled with an
  executable decimal rendering `natStr` of natural numbers;
* the orchestrator `excel_to_sqlite` is modelled as a pure fold over the
  workbook's sheets producing a trace: the `to_sql` write events, the
  `PROGRESS:` values, the synthesized headers of every sheet, and the
  final outcome.  Reading an uninitialized Python local
  (`check_List_Pipe` / `check_List_Nominal`, whose initializations are
  commented out in the source) is modelled as `Outcome.crash`.
-/

/-! ## Decimal rendering of naturals (Python `str(i)` / f-string `{i}`) -/

def digitChar : Nat → Char
  | 0 => '0' | 1 => '1' | 2 => '2' | 3 => '3' | 4 => '4'
  | 5 => '5' | 6 => '6' | 7 => '7' | 8 => '8' | 9 => '9'
  | _ => '*'

def digitVal (c : Char) : Nat := c.toNat - 48

def natDigitsAux : Nat → Nat → List Char
  | 0, _ => []
  | fuel + 1, n =>
    if n < 10 then [digitChar n]
    else natDigitsAux fuel (n / 10) ++ [digitChar (n % 10)]

def natDigits (n : Nat) : List Char := natDigitsAux (n + 1) n

def natStr (n : Nat) : String := ⟨natDigits n⟩

def intStr (z : ℤ) : String :=
  if z < 0 then "-" ++ natStr z.natAbs else natStr z.natAbs

def decodeDigits (l : List Char) : Nat :=
  l.foldl (fun a c => a * 10 + digitVal c) 0

/-! ## Python string / float primitives -/

def isSpace (c : Char) : Bool :=
  c == ' ' || c == '\t' || c == '\n' || c == '\r'

/-- Python `str.strip()`: remove leading and trailing whitespace. -/
def pyStrip (s : String) : String :=
  ⟨((s.data.dropWhile isSpace).reverse.dropWhile isSpace).reverse⟩

/-- Python `round` with no digits argument: round half to even (banker's
rounding).  This is the exact semantics of `round` on floats and of
`np.float64.__round__`. -/
def pythonRound (x : ℚ) : ℤ :=
  let f : ℤ := ⌊x⌋
  let r : ℚ := x - (f : ℚ)
  if r < 1/2 then f
  else if 1/2 < r then f + 1
  else if f % 2 = 0 then f else f + 1

/-- Python `round(x, k)` / numpy `.round(k)`: round half to even at the
k-th decimal place (float rounding idealized over `ℚ`). -/
def roundTo (k : Nat) (x : ℚ) : ℚ :=
  (pythonRound (x * (10 : ℚ) ^ k) : ℚ) / (10 : ℚ) ^ k

/-- Parser for the core of a decimal literal (no sign), as accepted by
Python `float`: `digits`, `digits.`, `.digits`, `digits.digits`. -/
def parseDecCore (l : List Char) : Option ℚ :=
  match l.splitOn '.' with
  | [a] =>
    if !a.isEmpty && a.all Char.isDigit then some (decodeDigits a) else none
  | [a, b] =>
    if (!a.isEmpty || !b.isEmpty) && a.all Char.isDigit && b.all Char.isDigit
    then some ((decodeDigits a : ℚ) + (decodeDigits b : ℚ) / (10 : ℚ) ^ b.length)
    else none
  | _ => none

/-- Python `float(s)` for plain decimal literals, idealized to exact
rationals (`none` = `ValueError`; exponent forms are out of scope since
no claim exercises them). -/
def parseDec? (s : String) : Option ℚ :=
  match s.data with
  | '-' :: rest => (parseDecCore rest).map Neg.neg
  | '+' :: rest => parseDecCore rest
  | l => parseDecCore l

def padZeros (k : Nat) (l : List Char) : List Char :=
  List.replicate (k - l.length) '0' ++ l

/-- Python `f"{x:.kf}"` fixed-point formatting, idealized over `ℚ`
(the tie-breaking of the format rounding is half-even, like the rest of
the float model). -/
def formatFixed (k : Nat) (q : ℚ) : String :=
  let n : ℤ := pythonRound (q * (10 : ℚ) ^ k)
  let sign := if n < 0 then "-" else ""
  let m := n.natAbs
  sign ++ natStr (m / 10 ^ k) ++ "." ++ ⟨padZeros k (natDigits (m % 10 ^ k))⟩

/-- Smallest number of decimal digits (at least 1) that represents `q`
exactly, if at most 20 suffice. -/
def decExp (q : ℚ) : Nat :=
  ((List.range 21).find? (fun k => decide (1 ≤ k) && (q * (10 : ℚ) ^ k).den == 1)).getD 17

/-- Python `str` of a float, idealized: shortest decimal form with at
least one fractional digit (`str(45.0) = "45.0"`, `str(45.2) = "45.2"`). -/
def renderFloat (q : ℚ) : String := formatFixed (decExp q) q

/-! ## Header synthesis (`set_specific_headers`, source lines 10-43) -/

/-- pandas `Series.ffill` on a header row: a NaN cell takes the value of
the nearest non-NaN cell to its left (empty strings are not NaN and are
not filled). -/
def ffillAux : Option String → List (Option String) → List (Option String)
  | _, [] => []
  | last, none :: rest => last :: ffillAux last rest
  | _, some v :: rest => some v :: ffillAux (some v) rest

def ffill (l : List (Option String)) : List (Option String) := ffillAux none l

/-- The stripped value of a header cell if it is non-NaN and non-blank. -/
def nonblank : Option String → Option String
  | some v => if pyStrip v = "" then none else some (pyStrip v)
  | none => none

/-- Header choice at column `i`: row 1's cell if non-blank, else row 0's
cell, else the positional placeholder (source lines 20-26). -/
def pickHeader (i : Nat) (fv sv : Option String) : String :=
  ((nonblank sv).getD ((nonblank fv).getD ("Unnamed_" ++ natStr i)))

def combineHeaders (first second : List (Option String)) : List String :=
  (List.enum ((ffill first).zip (ffill second))).map
    (fun p => pickHeader p.1 p.2.1 p.2.2)

/-- Forced-Comments rule (source lines 28-30): for sheets other than the
nominal-wall-thickness sheet, if `Comments` is absent and there is more
than one header, overwrite the last header. -/
def forceComments (sheetname : String) (headers : List String) : List String :=
  if sheetname ≠ "List of Nominal Wall Thickness" ∧
      "Comments" ∉ headers ∧ headers.length > 1
  then headers.dropLast ++ ["Comments"]
  else headers

/-- Uniqueness pass (source lines 32-39): scanning left to right, a
header string already present in the accumulated output is appended with
an `_<i>` suffix (its 0-based position), otherwise kept as-is. -/
def makeUniqueAux : Nat → List String → List String → List String
  | _, acc, [] => acc
  | i, acc, h :: rest =>
    if h ∈ acc then makeUniqueAux (i + 1) (acc ++ [h ++ "_" ++ natStr i]) rest
    else makeUniqueAux (i + 1) (acc ++ [h]) rest

def makeUnique (headers : List String) : List String := makeUniqueAux 0 [] headers

/-- Model of `set_specific_headers`: synthesized column names for a worksheet
from its two header rows (the data rows are carried separately by the
`Sheet` structure; the source's `df.drop([0, 1])` corresponds to pairing
these names with `Sheet.data`). -/
def set_specific_headers (first second : List (Option String)) (sheetname : String) :
    List String :=
  makeUnique (forceComments sheetname (combineHeaders first second))

/-- Model of `GetHeaderColumn` (source lines 137-152): single-row header extractor
used to load the reference schema; NaN becomes the literal `Unnamed`. -/
def GetHeaderColumn (row : List (Option String)) : List String :=
  makeUnique (row.map (fun c => c.getD "Unnamed"))

/-! ## Schema reconciliation (`compare_arrays_with_alert`, lines 154-188) -/

/-- Number of aligned positions (up to the shorter length) where the two
strings differ: `sum((c1 != c2) for c1, c2 in zip(word, temp_word))`. -/
def countDiff (a b : List Char) : Nat :=
  (a.zip b).countP (fun p => !(p.1 == p.2))

/-- The near-match test of the source (line 172/179): at most 2 aligned
differing characters and lengths within 2 of each other. -/
def nearMatch (w t : String) : Bool :=
  decide (countDiff w.data t.data ≤ 2) &&
  decide (((w.length : ℤ) - (t.length : ℤ)).natAbs ≤ 2)

/-- Model of `compare_arrays_with_alert`: `compare_arrays_with_alert temp data` returns
`(message, misspelled, true_extra, missing)`.  Python's sets are
modelled as deduplicated lists (set iteration order is unspecified in
Python; the classification is order-independent). -/
def compare_arrays_with_alert (temp data : List String) :
    String × List String × List String × List String :=
  let tempS := temp.dedup
  let dataS := data.dedup
  let potentially_missing := tempS.filter (fun t => !(dataS.contains t))
  let extra_in_data := dataS.filter (fun d => !(tempS.contains d))
  let misspelled := extra_in_data.filter (fun w => tempS.any (fun t => nearMatch w t))
  let true_extra := extra_in_data.filter (fun w => !(tempS.any (fun t => nearMatch w t)))
  let missing := potentially_missing.filter
    (fun t => !(dataS.any (fun d => nearMatch t d)))
  let message := if missing = [] ∧ misspelled = [] ∧ true_extra = []
    then "OK" else "HAVE ERROR"
  (message, misspelled, true_extra, missing)

/-! ## Cells and DataFrames -/

/-- A cell value: NaN/None, a string, or a number (floats idealized as
rationals). -/
inductive Cell where
  | null : Cell
  | str : String → Cell
  | num : ℚ → Cell
deriving DecidableEq

/-- A DataFrame, column-major: ordered columns, each a name paired with
its cell values. -/
abbrev DF : Type := List (String × List Cell)

/-- The column names, in order (`df.columns`). -/
def colNames (df : DF) : List String := df.map (fun p => p.1)

/-- Whether a column of that name exists (`name in df.columns`). -/
def hasCol (df : DF) (n : String) : Bool := df.any (fun p => p.1 == n)

/-- The cell values of the first column of that name (`df[name]`). -/
def colVals (df : DF) (n : String) : List Cell :=
  ((df.find? (fun p => p.1 == n)).map (fun p => p.2)).getD []

/-- Model of `df.columns.get_loc(name)`: index of the first column of that name. -/
def colLoc (df : DF) (n : String) : Nat := df.findIdx (fun p => p.1 == n)

/-- Number of rows (pandas index length; all columns share it). -/
def numRows (df : DF) : Nat :=
  match df with
  | [] => 0
  | c :: _ => c.2.length

/-! ## Column coercion (`convert_data_types`, source lines 75-105) -/

/-- Model of `pd.to_numeric(·, errors='coerce')` on one cell. -/
def toNumeric (c : Cell) : Option ℚ :=
  match c with
  | Cell.null => none
  | Cell.num q => some q
  | Cell.str s => parseDec? s

/-- Model of `custom_round` (source lines 46-50): NA stays NA, otherwise Python
`round` (round half to even — the docstring's "round up at 0.5" is not
what the code does). -/
def custom_round (x : Option ℚ) : Option ℤ := x.map pythonRound

/-- Model of `custom_round_two_decimal` (source lines 66-73). -/
def custom_round_two_decimal (x : ℚ) : ℚ :=
  let rounded := (pythonRound (x * 100) : ℚ) / 100
  let rounded := if roundTo 3 x - rounded ≥ 1/1000 then rounded + 1/100 else rounded
  roundTo 2 rounded

/-- Model of `custom_round_max_depth` (source lines 52-63), applied to a raw cell:
NA stays None; a parsable value with more than one decimal place of
precision becomes the string of its rounded integer, otherwise the
string of the float; unparsable text is kept as-is. -/
def custom_round_max_depth (c : Cell) : Cell :=
  match c with
  | Cell.null => Cell.null
  | Cell.num q =>
    if |q - roundTo 1 q| > 1/100000
    then Cell.str (intStr (pythonRound q))
    else Cell.str (renderFloat q)
  | Cell.str s =>
    match parseDec? s with
    | some q =>
      if |q - roundTo 1 q| > 1/100000
      then Cell.str (intStr (pythonRound q))
      else Cell.str (renderFloat q)
    | none => Cell.str s

/-- The four three-decimal columns (source line 82). -/
def columns_three_decimal : List String :=
  ["Altitude [m]", "Joint / component length [m]",
   "Abs. Dist. to upstream weld [m]", "Remaining thickness [mm]"]

/-- The two two-decimal columns (source line 88). -/
def columns_two_decimal : List String :=
  ["Nominal Internal diameter [mm]", "Max. depth [mm]"]

/-- The two round-to-integer columns (source line 97). -/
def numeric_columns_to_round : List String := ["Length [mm]", "Width [mm]"]

/-- Coercion of one cell of a round-to-integer column (source line 100):
`to_numeric` then `custom_round` then `str(int(x))`, `None` if unparsable. -/
def coerceIntCol (c : Cell) : Cell :=
  match custom_round (toNumeric c) with
  | none => Cell.null
  | some z => Cell.str (intStr z)

/-- Coercion of one cell of a three-decimal column (source line 86). -/
def coerceThreeDec (c : Cell) : Cell :=
  match toNumeric c with
  | none => Cell.null
  | some q => Cell.str (formatFixed 3 (roundTo 3 q))

/-- Coercion of one cell of a two-decimal column (source line 92). -/
def coerceTwoDec (c : Cell) : Cell :=
  match toNumeric c with
  | none => Cell.null
  | some q => Cell.str (formatFixed 2 (custom_round_two_decimal q))

/-- Coercion of one cell of the log-distance column (source line 79):
numeric, rounded to 3 decimals, kept as a number. -/
def coerceLogDist (c : Cell) : Cell :=
  match toNumeric c with
  | none => Cell.null
  | some q => Cell.num (roundTo 3 q)

/-- Generic normalization (source lines 101-103): stringify; the literal
texts `nan`, `None` and the empty string, and underlying nulls, become
None. -/
def genericNorm (c : Cell) : Cell :=
  match c with
  | Cell.null => Cell.null
  | Cell.num q =>
    let s := renderFloat q
    if s = "nan" ∨ s = "None" ∨ s = "" then Cell.null else Cell.str s
  | Cell.str s =>
    if s = "nan" ∨ s = "None" ∨ s = "" then Cell.null else Cell.str s

/-- Per-column-name cell policy of `convert_data_types`. -/
def coerceCell (name : String) (c : Cell) : Cell :=
  if name = "Log distance [m]" then coerceLogDist c
  else if name ∈ columns_three_decimal then coerceThreeDec c
  else if name ∈ columns_two_decimal then coerceTwoDec c
  else if name = "Max. depth [%]" then custom_round_max_depth c
  else if name ∈ numeric_columns_to_round then coerceIntCol c
  else genericNorm c

/-- Model of `convert_data_types` (source lines 75-105): every column's cells are
mapped by the policy its name selects; names and order are unchanged. -/
def convert_data_types (df : DF) : DF :=
  df.map (fun p => (p.1, p.2.map (coerceCell p.1)))

/-! ## Measurement merge (`add_erf_type`, source lines 107-134) -/

def boolCell (b : Bool) : Cell := Cell.str (if b then "True" else "False")

/-- Model of `add_erf_type`: merge the `ERF (Modified)` / `ERF (metal loss)`
columns into `ERF` (inserted at the position `ERF (Modified)` — or the
single present source — occupied), add the `isNormalERF` flag column,
and drop the source columns. -/
def add_erf_type (df : DF) : DF :=
  if hasCol df "ERF (Modified)" && hasCol df "ERF (metal loss)" then
    let pos := colLoc df "ERF (Modified)"
    let mv := colVals df "ERF (Modified)"
    let nv := colVals df "ERF (metal loss)"
    let merged := mv.zipWith (fun m n => if m ≠ Cell.null then m else n) nv
    let flags := nv.map (fun n => boolCell (n ≠ Cell.null))
    ((df.insertIdx pos ("ERF", merged)) ++ [("isNormalERF", flags)]).filter
      (fun p => !(p.1 == "ERF (Modified)") && !(p.1 == "ERF (metal loss)"))
  else if hasCol df "ERF (Modified)" then
    let pos := colLoc df "ERF (Modified)"
    let mv := colVals df "ERF (Modified)"
    let flags := List.replicate (numRows df) (boolCell false)
    ((df.insertIdx pos ("ERF", mv)) ++ [("isNormalERF", flags)]).filter
      (fun p => !(p.1 == "ERF (Modified)"))
  else if hasCol df "ERF (metal loss)" then
    let pos := colLoc df "ERF (metal loss)"
    let nv := colVals df "ERF (metal loss)"
    let flags := List.replicate (numRows df) (boolCell true)
    ((df.insertIdx pos ("ERF", nv)) ++ [("isNormalERF", flags)]).filter
      (fun p => !(p.1 == "ERF (metal loss)"))
  else
    df ++ [("isNormalERF", List.replicate (numRows df) (boolCell true))]

/-! ## The conversion run (`excel_to_sqlite`, source lines 200-304) -/

/-- A worksheet of the input workbook: its name, the two header rows,
and the data columns (each column's cells, the two header rows already
excluded — the source's `df.drop([0, 1])`). -/
structure Sheet where
  name : String
  first : List (Option String)
  second : List (Option String)
  data : List (List Cell)
deriving DecidableEq

/-- The reference schemas, loaded once at startup from the packaged
header workbook via `GetHeaderColumn` (external data, passed in). -/
structure Refs where
  pipeCols : List String
  nomCols : List String
deriving DecidableEq

/-- The table a worksheet carries after header synthesis. -/
def synthDF (s : Sheet) : DF :=
  (set_specific_headers s.first s.second s.name).zip s.data

/-- Source lines 253-254: drop `isNormalERF` if present. -/
def dropIsNormal (df : DF) : DF :=
  if hasCol df "isNormalERF"
  then df.filter (fun p => !(p.1 == "isNormalERF"))
  else df

/-- The full processing a pipe-tally sheet's table undergoes before
reconciliation and persistence (source lines 250-255). -/
def pipeProcess (s : Sheet) : DF :=
  convert_data_types (dropIsNormal (add_erf_type (synthDF s)))

/-- The table that reconciliation and persistence see for a designated
sheet: merged and coerced for the pipe-tally sheet, the synthesized
table unchanged for the nominal-wall-thickness sheet. -/
def sheetTable (s : Sheet) : DF :=
  if s.name = "List of Pipe Tally" then pipeProcess s else synthDF s

/-- The reference schema a designated sheet is reconciled against. -/
def sheetRef (refs : Refs) (s : Sheet) : List String :=
  if s.name = "List of Pipe Tally" then refs.pipeCols else refs.nomCols

/-- The write/reject decision taken from a reconciliation result
(source lines 258-270 / 275-288). -/
inductive Gate where
  | abort : Gate
  | write : Gate
  | skip : Gate
deriving DecidableEq

def gateOf (r : String × List String × List String × List String) : Gate :=
  if r.1 ≠ "OK" then
    if r.2.1 ≠ [] ∨ r.2.2.2 ≠ [] then Gate.abort
    else if r.2.2.1 ≠ [] then Gate.write
    else Gate.skip
  else Gate.write

/-- Mutable state of the loop over worksheets.  `checkPipe` and
`checkNominal` model the Python locals `check_List_Pipe` and
`check_List_Nominal`: `none` means the variable was never assigned
(its initialization at source lines 203-204 is commented out). -/
structure RunState where
  writes : List (String × DF)
  progress : List Nat
  synths : List (String × List String)
  checkPipe : Option Bool
  checkNominal : Option Bool
deriving DecidableEq

def initState : RunState :=
  { writes := [], progress := [], synths := [], checkPipe := none, checkNominal := none }

inductive Outcome where
  | success : Outcome
  | failure : Outcome
  | crash : Outcome
deriving DecidableEq

/-- Observable trace of a run: `to_sql` write events in order, reported
progress values, the synthesized headers of every processed sheet, and
the outcome (`crash` = `UnboundLocalError` on an unassigned check
variable at source lines 295-297). -/
structure RunTrace where
  writes : List (String × DF)
  progress : List Nat
  synths : List (String × List String)
  outcome : Outcome
deriving DecidableEq

/-- End of the loop (source lines 295-304): the two check variables are
read; reading an unassigned one raises (`crash`), otherwise the run
returns `True`. -/
def endRun (st : RunState) : RunTrace :=
  match st.checkPipe with
  | none => ⟨st.writes, st.progress, st.synths, Outcome.crash⟩
  | some _ =>
    match st.checkNominal with
    | none => ⟨st.writes, st.progress, st.synths, Outcome.crash⟩
    | some _ => ⟨st.writes, st.progress, st.synths, Outcome.success⟩

/-- One designated-sheet step after reconciliation: abort, or persist
and continue, or continue without persisting. -/
def applyGate (st : RunState) (name : String) (df : DF) : Gate → Option RunState
  | Gate.abort => none
  | Gate.write => some { st with writes := st.writes ++ [(name, df)] }
  | Gate.skip => some st

/-- The loop over worksheets (source lines 241-292), sheet index `i`
starting at 1.  Progress `int((i / total) * 100)` is modelled as exact
floor division (floats idealized). -/
def runLoop (refs : Refs) (total : Nat) : Nat → List Sheet → RunState → RunTrace
  | _, [], st => endRun st
  | i, s :: rest, st =>
    let hdr := set_specific_headers s.first s.second s.name
    let st := { st with synths := st.synths ++ [(s.name, hdr)] }
    if s.name = "List of Pipe Tally" then
      let st := { st with checkPipe := some true }
      let df := pipeProcess s
      let r := compare_arrays_with_alert refs.pipeCols (colNames df)
      match applyGate st s.name df (gateOf r) with
      | none => ⟨st.writes, st.progress, st.synths, Outcome.failure⟩
      | some st =>
        runLoop refs total (i + 1) rest
          { st with progress := st.progress ++ [100 * i / total] }
    else if s.name = "List of Nominal Wall Thickness" then
      let st := { st with checkNominal := some true }
      let df := synthDF s
      let r := compare_arrays_with_alert refs.nomCols (colNames df)
      match applyGate st s.name df (gateOf r) with
      | none => ⟨st.writes, st.progress, st.synths, Outcome.failure⟩
      | some st =>
        runLoop refs total (i + 1) rest
          { st with progress := st.progress ++ [100 * i / total] }
    else
      runLoop refs total (i + 1) rest
        { st with progress := st.progress ++ [100 * i / total] }

/-- Model of `excel_to_sqlite`, from the point where the workbook is open: loop
over all sheets, then the end-of-run checks. -/
def run (refs : Refs) (sheets : List Sheet) : RunTrace :=
  runLoop refs sheets.length 1 sheets initState

/-! ## Helper lemmas: decimal digits and the `_<i>` suffix -/

theorem digitChar_ne_underscore (d : Nat) : digitChar d ≠ '_' := by
  unfold digitChar
  split <;> decide

theorem digitVal_digitChar {d : Nat} (h : d < 10) : digitVal (digitChar d) = d := by
  interval_cases d <;> decide

theorem natDigitsAux_no_underscore (fuel : Nat) : ∀ n, '_' ∉ natDigitsAux fuel n := by
  induction fuel with
  | zero => intro n; simp [natDigitsAux]
  | succ fuel ih =>
    intro n
    rw [natDigitsAux]
    split
    · simp only [List.mem_singleton]
      exact fun e => digitChar_ne_underscore n e.symm
    · intro hmem
      rcases List.mem_append.1 hmem with hmem | hmem
      · exact ih (n / 10) hmem
      · simp at hmem
        exact digitChar_ne_underscore (n % 10) hmem.symm

theorem natDigits_no_underscore (n : Nat) : '_' ∉ natDigits n :=
  natDigitsAux_no_underscore (n + 1) n

theorem decodeDigits_natDigitsAux (fuel : Nat) :
    ∀ n, n < fuel → decodeDigits (natDigitsAux fuel n) = n := by
  induction fuel with
  | zero => intro n h; omega
  | succ fuel ih =>
    intro n h
    rw [natDigitsAux]
    split
    · next h10 => simp [decodeDigits, digitVal_digitChar h10]
    · next h10 =>
      rw [decodeDigits, List.foldl_append]
      simp only [List.foldl_cons, List.foldl_nil]
      have hdiv : n / 10 < fuel := by
        have := Nat.div_lt_self (show 0 < n by omega) (show 1 < 10 by omega)
        omega
      have hrec : List.foldl (fun a c => a * 10 + digitVal c) 0 (natDigitsAux fuel (n / 10)) =
          n / 10 := ih (n / 10) hdiv
      rw [hrec, digitVal_digitChar (Nat.mod_lt _ (by omega))]
      omega

theorem decodeDigits_natDigits (n : Nat) : decodeDigits (natDigits n) = n :=
  decodeDigits_natDigitsAux (n + 1) n (by omega)

theorem natDigits_injOn {m n : Nat} (h : natDigits m = natDigits n) : m = n := by
  rw [← decodeDigits_natDigits m, ← decodeDigits_natDigits n, h]

theorem natStr_no_underscore (n : Nat) : '_' ∉ (natStr n).data :=
  natDigits_no_underscore n

theorem underscore_mem_suffixed (h : String) (i : Nat) :
    '_' ∈ (h ++ "_" ++ natStr i).data := by
  rw [String.data_append, String.data_append]
  exact List.mem_append.2 (Or.inl (List.mem_append.2 (Or.inr (by decide))))

theorem append_underscore_inj {a b s t : List Char} (ha : '_' ∉ a) (hb : '_' ∉ b)
    (h : a ++ '_' :: s = b ++ '_' :: t) : a = b ∧ s = t := by
  induction a generalizing b with
  | nil =>
    cases b with
    | nil => simpa using h
    | cons c b' =>
      rw [List.nil_append, List.cons_append, List.cons.injEq] at h
      exact absurd (h.1 ▸ List.mem_cons_self '_' b') hb
  | cons c a' ih =>
    cases b with
    | nil =>
      rw [List.cons_append, List.nil_append, List.cons.injEq] at h
      exact absurd (h.1 ▸ List.mem_cons_self '_' a') ha
    | cons d b' =>
      rw [List.cons_append, List.cons_append, List.cons.injEq] at h
      have ha' : '_' ∉ a' := fun hm => ha (List.mem_cons_of_mem _ hm)
      have hb' : '_' ∉ b' := fun hm => hb (List.mem_cons_of_mem _ hm)
      obtain ⟨h1, h2⟩ := ih ha' hb' h.2
      exact ⟨by rw [h.1, h1], h2⟩

theorem suffixed_inj {x y : String} {i j : Nat}
    (hx : '_' ∉ x.data) (hy : '_' ∉ y.data)
    (h : x ++ "_" ++ natStr i = y ++ "_" ++ natStr j) : x = y ∧ i = j := by
  have hd := congrArg String.data h
  rw [String.data_append, String.data_append, String.data_append, String.data_append] at hd
  have hd' : x.data ++ '_' :: (natStr i).data = y.data ++ '_' :: (natStr j).data := by
    simpa using hd
  obtain ⟨h1, h2⟩ := append_underscore_inj hx hy hd'
  refine ⟨?_, natDigits_injOn h2⟩
  cases x; cases y
  exact congrArg String.mk h1

/-! ## Helper lemmas: the uniqueness pass -/

theorem makeUniqueAux_length (rest : List String) :
    ∀ i acc, (makeUniqueAux i acc rest).length = acc.length + rest.length := by
  induction rest with
  | nil => intro i acc; simp [makeUniqueAux]
  | cons h rest ih =>
    intro i acc
    rw [makeUniqueAux]
    split <;> rw [ih] <;> simp <;> omega

theorem makeUnique_length (headers : List String) :
    (makeUnique headers).length = headers.length := by
  rw [makeUnique, makeUniqueAux_length]
  simp

theorem suffixed_ne_comments (h : String) (i : Nat) :
    h ++ "_" ++ natStr i ≠ "Comments" := by
  intro e
  have hm := underscore_mem_suffixed h i
  rw [e] at hm
  exact absurd hm (by decide)

theorem makeUniqueAux_nodup (rest : List String) :
    ∀ i acc, (∀ x ∈ rest, '_' ∉ x.data) →
    (∀ a ∈ acc, ('_' ∉ a.data) ∨ ∃ g k, '_' ∉ g.data ∧ k < i ∧ a = g ++ "_" ++ natStr k) →
    acc.Nodup → (makeUniqueAux i acc rest).Nodup := by
  induction rest with
  | nil => intro i acc _ _ hnd; simpa [makeUniqueAux] using hnd
  | cons h rest ih =>
    intro i acc hrest hacc hnd
    have hh : '_' ∉ h.data := hrest h (List.mem_cons_self h rest)
    have hrest' : ∀ x ∈ rest, '_' ∉ x.data :=
      fun x hx => hrest x (List.mem_cons_of_mem _ hx)
    rw [makeUniqueAux]
    split
    · apply ih (i + 1) _ hrest'
      · intro a ha
        rcases List.mem_append.1 ha with ha | ha
        · rcases hacc a ha with h1 | ⟨g, k, hg, hk, he⟩
          · exact Or.inl h1
          · exact Or.inr ⟨g, k, hg, by omega, he⟩
        · simp only [List.mem_singleton] at ha
          exact Or.inr ⟨h, i, hh, by omega, ha⟩
      · rw [List.nodup_append]
        refine ⟨hnd, List.nodup_singleton _, ?_⟩
        intro x hx hx'
        simp only [List.mem_singleton] at hx'
        rcases hacc x hx with h1 | ⟨g, k, hg, hk, he⟩
        · rw [hx'] at h1
          exact h1 (underscore_mem_suffixed h i)
        · obtain ⟨_, hik⟩ := suffixed_inj hg hh (he.symm.trans hx')
          omega
    · next hfresh =>
      apply ih (i + 1) _ hrest'
      · intro a ha
        rcases List.mem_append.1 ha with ha | ha
        · rcases hacc a ha with h1 | ⟨g, k, hg, hk, he⟩
          · exact Or.inl h1
          · exact Or.inr ⟨g, k, hg, by omega, he⟩
        · simp only [List.mem_singleton] at ha
          exact Or.inl (ha ▸ hh)
      · rw [List.nodup_append]
        refine ⟨hnd, List.nodup_singleton _, ?_⟩
        intro x hx hx'
        simp only [List.mem_singleton] at hx'
        exact hfresh (hx' ▸ hx)

theorem makeUniqueAux_getLast (pre : List String) :
    ∀ i acc, "Comments" ∉ acc → "Comments" ∉ pre →
    (makeUniqueAux i acc (pre ++ ["Comments"])).getLast? = some "Comments" := by
  induction pre with
  | nil =>
    intro i acc hacc _
    rw [List.nil_append, makeUniqueAux, if_neg hacc, makeUniqueAux]
    exact List.getLast?_concat acc
  | cons h pre ih =>
    intro i acc hacc hpre
    have hh : h ≠ "Comments" := fun e => hpre (e ▸ List.mem_cons_self h pre)
    have hpre' : "Comments" ∉ pre := fun hc => hpre (List.mem_cons_of_mem _ hc)
    rw [List.cons_append, makeUniqueAux]
    split
    · apply ih (i + 1) _ ?_ hpre'
      intro hc
      rcases List.mem_append.1 hc with hc | hc
      · exact hacc hc
      · simp only [List.mem_singleton] at hc
        exact suffixed_ne_comments h i hc.symm
    · apply ih (i + 1) _ ?_ hpre'
      intro hc
      rcases List.mem_append.1 hc with hc | hc
      · exact hacc hc
      · simp only [List.mem_singleton] at hc
        exact hh hc.symm

/-! ## Helper lemmas: header combination and the forced-Comments rule -/

theorem ffillAux_length (l : List (Option String)) :
    ∀ o, (ffillAux o l).length = l.length := by
  induction l with
  | nil => intro o; rfl
  | cons c rest ih =>
    intro o
    cases c <;> simp [ffillAux, ih]

theorem combineHeaders_length (first second : List (Option String)) :
    (combineHeaders first second).length = min first.length second.length := by
  simp [combineHeaders, List.enum_length, ffill, ffillAux_length]

theorem forceComments_length (sheetname : String) (headers : List String) :
    (forceComments sheetname headers).length = headers.length := by
  rw [forceComments]
  split
  · next hc =>
    rw [List.length_append, List.length_dropLast]
    have := hc.2.2
    simp
    omega
  · rfl

theorem forceComments_no_underscore {sheetname : String} {headers : List String}
    (h : ∀ x ∈ headers, '_' ∉ x.data) :
    ∀ x ∈ forceComments sheetname headers, '_' ∉ x.data := by
  intro x hx
  rw [forceComments] at hx
  split at hx
  · rcases List.mem_append.1 hx with hx | hx
    · exact h x (List.dropLast_subset headers hx)
    · simp only [List.mem_singleton] at hx
      rw [hx]
      decide
  · exact h x hx

/-! ## Claim C6 -/

/-- C6 (counterexample): the claim "for every two-row header input the
synthesized Schema contains no two equal name strings" is false: with
second header row `A_2, A, A` on the nominal-wall-thickness sheet, the
uniqueness pass suffixes the third `A` to `A_2`, which collides with the
first header, so the output `[A_2, A, A_2]` has a duplicate. -/
theorem c6_unique_headers_counterexample :
    set_specific_headers [none, none, none] [some "A_2", some "A", some "A"]
      "List of Nominal Wall Thickness" = ["A_2", "A", "A_2"] ∧
    ¬ (set_specific_headers [none, none, none] [some "A_2", some "A", some "A"]
      "List of Nominal Wall Thickness").Nodup := by
  constructor
  · decide
  · decide

/-- C6 (amended): for every two-row header input of equal width, the
synthesized Schema has exactly as many names as the input has columns;
and it is duplicate-free whenever no synthesized header string contains
an underscore character (the appended `_<i>` suffix can otherwise
collide with an existing header, as the counterexample shows). -/
theorem c6_unique_headers_amended (first second : List (Option String))
    (sheetname : String) (hlen : first.length = second.length) :
    (set_specific_headers first second sheetname).length = second.length ∧
    ((∀ x ∈ combineHeaders first second, '_' ∉ x.data) →
      (set_specific_headers first second sheetname).Nodup) := by
  constructor
  · rw [set_specific_headers, makeUnique_length, forceComments_length,
      combineHeaders_length, hlen, min_self]
  · intro hnou
    exact makeUniqueAux_nodup _ 0 []
      (forceComments_no_underscore hnou) (by simp) List.nodup_nil

/-- Witness for C6 (amended) at a concrete two-column input. -/
theorem c6_unique_headers_amended_witness :
    (set_specific_headers [some "P", some "Q"] [some "A", some "B"] "Sheet1").length = 2 ∧
    (set_specific_headers [some "P", some "Q"] [some "A", some "B"] "Sheet1").Nodup := by
  have h := c6_unique_headers_amended [some "P", some "Q"] [some "A", some "B"]
    "Sheet1" (by decide)
  exact ⟨h.1, h.2 (by decide)⟩

/-! ## Claim C7 -/

/-- C7 (counterexample): the forced-Comments rule does not apply to a
one-column sheet: the source guards it with `len(headers) > 1`, so for
the single-column non-wall-thickness input below the synthesized headers
lack `Comments` and yet the last header is not replaced. -/
theorem c7_forced_comments_counterexample :
    set_specific_headers [none] [some "X"] "Data" = ["X"] ∧
    "Comments" ∉ combineHeaders [none] [some "X"] ∧
    (set_specific_headers [none] [some "X"] "Data").getLast? ≠ some "Comments" := by
  refine ⟨by decide, by decide, by decide⟩

/-- C7 (amended): for a worksheet that is not the wall-thickness kind,
whenever the synthesized header list does not contain `Comments` AND has
more than one entry, the last header of the final Schema is `Comments`. -/
theorem c7_forced_comments_amended (first second : List (Option String))
    (sheetname : String)
    (hsheet : sheetname ≠ "List of Nominal Wall Thickness")
    (hnoc : "Comments" ∉ combineHeaders first second)
    (hlen : (combineHeaders first second).length > 1) :
    (set_specific_headers first second sheetname).getLast? = some "Comments" := by
  rw [set_specific_headers, forceComments, if_pos ⟨hsheet, hnoc, hlen⟩, makeUnique]
  apply makeUniqueAux_getLast _ 0 [] (by simp)
  intro hc
  exact hnoc (List.dropLast_subset _ hc)

/-- Witness for C7 (amended) at a concrete two-column input. -/
theorem c7_forced_comments_amended_witness :
    (set_specific_headers [some "P", some "Q"] [some "A", some "B"] "Data").getLast? =
      some "Comments" :=
  c7_forced_comments_amended [some "P", some "Q"] [some "A", some "B"] "Data"
    (by decide) (by decide) (by decide)

theorem contains_false_iff (l : List String) (a : String) :
    l.contains a = false ↔ a ∉ l := by
  constructor
  · intro h hm
    have he : List.elem a l = true := List.elem_iff.2 hm
    have : l.contains a = true := he
    rw [h] at this
    cases this
  · intro h
    cases e : l.contains a
    · rfl
    · exact absurd (List.elem_iff.1 e) h

/-! ## Claim C2 -/

/-- C2: schema reconciliation classifies a candidate name absent from
the reference as misspelled exactly when it near-matches some reference
name and as true-extra otherwise; a reference name absent from the
candidate is missing exactly when it near-matches no candidate name;
the near-match test is "at most 2 aligned differing characters and
length difference at most 2"; the status is `OK` iff all three sets are
empty; and reconciling reference `A, B, C` against candidate `A, B, D`
yields no missing names, misspelled `D`, no true extras, and status
`HAVE ERROR`. -/
theorem c2_reconciliation_characterization (temp data : List String) :
    (∀ w, w ∈ (compare_arrays_with_alert temp data).2.1 ↔
      (w ∈ data ∧ w ∉ temp ∧ ∃ t ∈ temp, nearMatch w t = true)) ∧
    (∀ w, w ∈ (compare_arrays_with_alert temp data).2.2.1 ↔
      (w ∈ data ∧ w ∉ temp ∧ ∀ t ∈ temp, ¬ nearMatch w t = true)) ∧
    (∀ w, w ∈ (compare_arrays_with_alert temp data).2.2.2 ↔
      (w ∈ temp ∧ w ∉ data ∧ ∀ d ∈ data, ¬ nearMatch w d = true)) ∧
    ((compare_arrays_with_alert temp data).1 = "OK" ↔
      (compare_arrays_with_alert temp data).2.1 = [] ∧
      (compare_arrays_with_alert temp data).2.2.1 = [] ∧
      (compare_arrays_with_alert temp data).2.2.2 = []) ∧
    (∀ w t : String, nearMatch w t = true ↔
      countDiff w.data t.data ≤ 2 ∧ ((w.length : ℤ) - (t.length : ℤ)).natAbs ≤ 2) ∧
    compare_arrays_with_alert ["A", "B", "C"] ["A", "B", "D"] =
      ("HAVE ERROR", ["D"], [], []) := by
  refine ⟨?_, ?_, ?_, ?_, ?_, by decide⟩
  · intro w
    simp only [compare_arrays_with_alert, List.mem_filter, List.mem_dedup,
      Bool.not_eq_true', contains_false_iff, List.any_eq_true]
    tauto
  · intro w
    simp only [compare_arrays_with_alert, List.mem_filter, List.mem_dedup,
      Bool.not_eq_true', contains_false_iff, List.any_eq_false, Bool.not_eq_true]
    tauto
  · intro w
    simp only [compare_arrays_with_alert, List.mem_filter, List.mem_dedup,
      Bool.not_eq_true', contains_false_iff, List.any_eq_false, Bool.not_eq_true]
    tauto
  · simp only [compare_arrays_with_alert]
    split
    · next hc =>
      constructor
      · intro _
        exact ⟨hc.2.1, hc.2.2, hc.1⟩
      · intro _
        rfl
    · next hc =>
      constructor
      · intro e; exact absurd e (by decide)
      · intro e; exact absurd ⟨e.2.2, e.1, e.2.1⟩ hc
  · intro w t
    simp [nearMatch]

/-! ## Helper lemmas: evaluating `pythonRound` on concrete rationals -/

theorem pythonRound_of_lt {x : ℚ} {f : ℤ} (hf : ⌊x⌋ = f) (h : x - f < 1/2) :
    pythonRound x = f := by
  rw [pythonRound, hf, if_pos h]

theorem pythonRound_of_half_even {x : ℚ} {f : ℤ} (hf : ⌊x⌋ = f)
    (h : x - f = 1/2) (he : f % 2 = 0) : pythonRound x = f := by
  rw [pythonRound, hf, if_neg (by rw [h]; exact lt_irrefl _),
    if_neg (by rw [h]; exact lt_irrefl _), if_pos he]

/-! ## Claim C3 -/

/-- C3 (code behavior at the claimed inputs): in the round-to-integer
columns `Length [mm]` / `Width [mm]`, the value 2.5 is rendered as the
string 2, not 3 — Python `round` rounds half to even, contradicting the
claim and the source docstring of `custom_round` ("round up at 0.5");
2.49 is rendered as 2 as claimed, and unparsable values become null as
claimed. -/
theorem c3_integer_rounding_code_behavior :
    coerceCell "Length [mm]" (Cell.str "2.5") = Cell.str "2" ∧
    coerceCell "Width [mm]" (Cell.num (5/2)) = Cell.str "2" ∧
    coerceCell "Length [mm]" (Cell.str "2.49") = Cell.str "2" ∧
    coerceCell "Length [mm]" (Cell.str "abc") = Cell.null ∧
    ¬ coerceCell "Length [mm]" (Cell.str "2.5") = Cell.str "3" := by
  have hround25 : pythonRound (5/2 : ℚ) = 2 := by
    apply pythonRound_of_half_even
    · rw [Int.floor_eq_iff] <;> norm_num
    · norm_num
    · decide
  have hround249 : pythonRound (249/100 : ℚ) = 2 := by
    apply pythonRound_of_lt
    · rw [Int.floor_eq_iff] <;> norm_num
    · norm_num
  have hp25 : parseDec? "2.5" = some (5/2) := by
    have e : parseDec? "2.5" = some ((2 : ℚ) + 5 / 10 ^ 1) := rfl
    rw [e]
    norm_num
  have hp249 : parseDec? "2.49" = some (249/100) := by
    have e : parseDec? "2.49" = some ((2 : ℚ) + 49 / 10 ^ 2) := rfl
    rw [e]
    norm_num
  have h25 : custom_round (toNumeric (Cell.str "2.5")) = some 2 := by
    rw [show toNumeric (Cell.str "2.5") = parseDec? "2.5" from rfl, hp25,
      custom_round, Option.map_some', hround25]
  have h249 : custom_round (toNumeric (Cell.str "2.49")) = some 2 := by
    rw [show toNumeric (Cell.str "2.49") = parseDec? "2.49" from rfl, hp249,
      custom_round, Option.map_some', hround249]
  have hnum25 : custom_round (toNumeric (Cell.num (5/2))) = some 2 := by
    rw [show toNumeric (Cell.num (5/2)) = some (5/2 : ℚ) from rfl,
      custom_round, Option.map_some', hround25]
  have hc25 : coerceIntCol (Cell.str "2.5") = Cell.str "2" := by
    unfold coerceIntCol
    rw [h25]
    decide
  have hc249 : coerceIntCol (Cell.str "2.49") = Cell.str "2" := by
    unfold coerceIntCol
    rw [h249]
    decide
  have hcnum : coerceIntCol (Cell.num (5/2)) = Cell.str "2" := by
    unfold coerceIntCol
    rw [hnum25]
    decide
  have e25 : coerceCell "Length [mm]" (Cell.str "2.5") = coerceIntCol (Cell.str "2.5") := rfl
  have e249 : coerceCell "Length [mm]" (Cell.str "2.49") =
      coerceIntCol (Cell.str "2.49") := rfl
  have enum : coerceCell "Width [mm]" (Cell.num (5/2)) = coerceIntCol (Cell.num (5/2)) := rfl
  refine ⟨?_, ?_, ?_, ?_, ?_⟩
  · rw [e25, hc25]
  · rw [enum, hcnum]
  · rw [e249, hc249]
  · rfl
  · rw [e25, hc25]
    decide

/-! ## Helper lemmas: column lookup through the merge's list surgery -/

theorem find?_filter_of_imp {α : Type} (l : List α) (p q : α → Bool)
    (h : ∀ x, p x = true → q x = true) : (l.filter q).find? p = l.find? p := by
  induction l with
  | nil => rfl
  | cons a l ih =>
    by_cases hq : q a = true
    · rw [List.filter_cons_of_pos hq]
      cases hp : p a
      · rw [List.find?_cons_of_neg _ (by simp [hp]), List.find?_cons_of_neg _ (by simp [hp]), ih]
      · rw [List.find?_cons_of_pos _ hp, List.find?_cons_of_pos _ hp]
    · have hp : p a = false := by
        cases hpa : p a
        · rfl
        · exact absurd (h a hpa) hq
      rw [List.filter_cons_of_neg hq, ih, List.find?_cons_of_neg _ (by simp [hp])]

theorem find?_insertIdx_self {α : Type} (e : α) (p : α → Bool) (hp : p e = true) :
    ∀ (pos : Nat) (l : List α), pos ≤ l.length → (∀ x ∈ l, p x = false) →
    (l.insertIdx pos e).find? p = some e := by
  intro pos
  induction pos with
  | zero =>
    intro l _ _
    rw [List.insertIdx_zero, List.find?_cons_of_pos _ hp]
  | succ pos ih =>
    intro l hlen hl
    cases l with
    | nil => simp at hlen
    | cons c l' =>
      rw [List.insertIdx_succ_cons,
        List.find?_cons_of_neg _ (by simp [hl c (List.mem_cons_self c l')])]
      exact ih l' (by simpa using hlen) (fun x hx => hl x (List.mem_cons_of_mem _ hx))

theorem find?_insertIdx_none {α : Type} (e : α) (p : α → Bool) (hp : p e = false)
    (pos : Nat) (l : List α) (hlen : pos ≤ l.length) (hl : ∀ x ∈ l, p x = false) :
    (l.insertIdx pos e).find? p = none := by
  rw [List.find?_eq_none]
  intro x hx
  rcases (List.mem_insertIdx hlen).1 hx with hx | hx
  · rw [hx, hp]; decide
  · rw [hl x hx]; decide

theorem map_insertIdx_comm {α β : Type} (f : α → β) (e : α) :
    ∀ (pos : Nat) (l : List α), pos ≤ l.length →
    (l.insertIdx pos e).map f = (l.map f).insertIdx pos (f e) := by
  intro pos
  induction pos with
  | zero => intro l _; rw [List.insertIdx_zero, List.insertIdx_zero, List.map_cons]
  | succ pos ih =>
    intro l hlen
    cases l with
    | nil => simp at hlen
    | cons c l' =>
      rw [List.insertIdx_succ_cons, List.map_cons, List.map_cons,
        List.insertIdx_succ_cons, ih l' (by simpa using hlen)]

theorem map_fst_filter (l : DF) (q : String → Bool) :
    (l.filter (fun p => q p.1)).map (fun p => p.1) =
      (l.map (fun p => p.1)).filter q := by
  induction l with
  | nil => rfl
  | cons a l ih =>
    cases hq : q a.1
    · rw [List.filter_cons_of_neg (by simp [hq]), List.map_cons,
        List.filter_cons_of_neg (by simp [hq]), ih]
    · rw [List.filter_cons_of_pos (by simp [hq]), List.map_cons, List.map_cons,
        List.filter_cons_of_pos (by simp [hq]), ih]

theorem colLoc_le_length {df : DF} {n : String} (h : hasCol df n = true) :
    colLoc df n ≤ df.length := by
  have : colLoc df n < df.length := by
    rw [colLoc, List.findIdx_lt_length]
    rw [hasCol, List.any_eq_true] at h
    exact h
  omega

theorem hasCol_false_names {df : DF} {n : String} (h : hasCol df n = false) :
    ∀ x ∈ df, (x.1 == n) = false := by
  intro x hx
  rw [hasCol, List.any_eq_false] at h
  cases e : x.1 == n
  · rfl
  · exact absurd e (h x hx)

theorem colVals_surgery (df : DF) (merged flags : List Cell)
    (keep : String × List Cell → Bool) (pos : Nat) (hpos : pos ≤ df.length)
    (herf : ∀ x ∈ df, (x.1 == "ERF") = false)
    (hflag : ∀ x ∈ df, (x.1 == "isNormalERF") = false)
    (hkE : ∀ x : String × List Cell, x.1 = "ERF" → keep x = true)
    (hkF : ∀ x : String × List Cell, x.1 = "isNormalERF" → keep x = true) :
    colVals (((df.insertIdx pos ("ERF", merged)) ++ [("isNormalERF", flags)]).filter keep)
      "ERF" = merged ∧
    colVals (((df.insertIdx pos ("ERF", merged)) ++ [("isNormalERF", flags)]).filter keep)
      "isNormalERF" = flags := by
  constructor
  · rw [colVals, find?_filter_of_imp _ _ keep (fun x hx => hkE x (by simpa using hx)),
      List.find?_append,
      find?_insertIdx_self ("ERF", merged) _ rfl pos df hpos herf,
      Option.or_some]
    rfl
  · rw [colVals, find?_filter_of_imp _ _ keep (fun x hx => hkF x (by simpa using hx)),
      List.find?_append,
      find?_insertIdx_none ("ERF", merged) _ rfl pos df hpos hflag,
      Option.none_or]
    rfl

theorem hasCol_filter_dropped (l : DF) (keep : String × List Cell → Bool) (n : String)
    (h : ∀ x : String × List Cell, x.1 = n → keep x = false) :
    hasCol (l.filter keep) n = false := by
  rw [hasCol, List.any_eq_false]
  intro x hx
  have hk := (List.mem_filter.1 hx).2
  intro he
  rw [h x (by simpa using he)] at hk
  cases hk

theorem names_surgery (df : DF) (merged flags : List Cell) (q : String → Bool)
    (pos : Nat) (hpos : pos ≤ df.length) (hq : q "isNormalERF" = true) :
    colNames (((df.insertIdx pos ("ERF", merged)) ++ [("isNormalERF", flags)]).filter
        (fun p => q p.1)) =
      ((colNames df).insertIdx pos "ERF").filter q ++ ["isNormalERF"] := by
  rw [colNames, List.filter_append, List.map_append]
  congr 1
  · rw [map_fst_filter, colNames, map_insertIdx_comm _ _ pos df hpos]
  · rw [List.filter_cons_of_pos (by simpa using hq), List.filter_nil]
    rfl

/-! ## Claim C8 -/

/-- C8: when both measurement columns are present, the merged `ERF`
value on each row is the modified value when non-null and the normal
value otherwise; the merged column is inserted at the position the
modified column occupied (the `isNormalERF` flag lands at the end and
the two source columns are then removed); the flag on each row is true
exactly when that row's normal value is non-null.  When only the
modified column is present the merged value is the modified value and
the flag is false on every row; when only the normal column is present
the merged value is the normal value and the flag is true on every
row. -/
theorem c8_erf_merge (df : DF)
    (herf : hasCol df "ERF" = false)
    (hflag : hasCol df "isNormalERF" = false) :
    (hasCol df "ERF (Modified)" = true → hasCol df "ERF (metal loss)" = true →
      colVals (add_erf_type df) "ERF" =
        (colVals df "ERF (Modified)").zipWith
          (fun m n => if m ≠ Cell.null then m else n) (colVals df "ERF (metal loss)") ∧
      colVals (add_erf_type df) "isNormalERF" =
        (colVals df "ERF (metal loss)").map (fun n => boolCell (n ≠ Cell.null)) ∧
      colNames (add_erf_type df) =
        ((colNames df).insertIdx (colLoc df "ERF (Modified)") "ERF").filter
          (fun n => !(n == "ERF (Modified)") && !(n == "ERF (metal loss)")) ++
          ["isNormalERF"] ∧
      hasCol (add_erf_type df) "ERF (Modified)" = false ∧
      hasCol (add_erf_type df) "ERF (metal loss)" = false) ∧
    (hasCol df "ERF (Modified)" = true → hasCol df "ERF (metal loss)" = false →
      colVals (add_erf_type df) "ERF" = colVals df "ERF (Modified)" ∧
      colVals (add_erf_type df) "isNormalERF" =
        List.replicate (numRows df) (boolCell false) ∧
      hasCol (add_erf_type df) "ERF (Modified)" = false) ∧
    (hasCol df "ERF (Modified)" = false → hasCol df "ERF (metal loss)" = true →
      colVals (add_erf_type df) "ERF" = colVals df "ERF (metal loss)" ∧
      colVals (add_erf_type df) "isNormalERF" =
        List.replicate (numRows df) (boolCell true) ∧
      hasCol (add_erf_type df) "ERF (metal loss)" = false) := by
  refine ⟨?_, ?_, ?_⟩
  · intro hm hn
    have hpos := colLoc_le_length hm
    have hb : add_erf_type df =
        ((df.insertIdx (colLoc df "ERF (Modified)")
            ("ERF", (colVals df "ERF (Modified)").zipWith
              (fun m n => if m ≠ Cell.null then m else n)
              (colVals df "ERF (metal loss)"))) ++
          [("isNormalERF", (colVals df "ERF (metal loss)").map
              (fun n => boolCell (n ≠ Cell.null)))]).filter
          (fun p => !(p.1 == "ERF (Modified)") && !(p.1 == "ERF (metal loss)")) := by
      simp only [add_erf_type, hm, hn]
      simp
    obtain ⟨hE, hF⟩ := colVals_surgery df _ _
      (fun p => !(p.1 == "ERF (Modified)") && !(p.1 == "ERF (metal loss)"))
      (colLoc df "ERF (Modified)") hpos
      (hasCol_false_names herf) (hasCol_false_names hflag)
      (fun x hx => by simp [hx])
      (fun x hx => by simp [hx])
    refine ⟨by rw [hb]; exact hE, by rw [hb]; exact hF, ?_, ?_, ?_⟩
    · rw [hb]
      exact names_surgery df _ _
        (fun n => !(n == "ERF (Modified)") && !(n == "ERF (metal loss)"))
        (colLoc df "ERF (Modified)") hpos rfl
    · rw [hb]
      exact hasCol_filter_dropped _ _ _
        (fun x hx => by simp [hx])
    · rw [hb]
      exact hasCol_filter_dropped _ _ _
        (fun x hx => by simp [hx])
  · intro hm hn
    have hpos := colLoc_le_length hm
    have hb : add_erf_type df =
        ((df.insertIdx (colLoc df "ERF (Modified)")
            ("ERF", colVals df "ERF (Modified)")) ++
          [("isNormalERF", List.replicate (numRows df) (boolCell false))]).filter
          (fun p => !(p.1 == "ERF (Modified)")) := by
      simp only [add_erf_type, hm, hn]
      simp
    obtain ⟨hE, hF⟩ := colVals_surgery df _ _
      (fun p => !(p.1 == "ERF (Modified)"))
      (colLoc df "ERF (Modified)") hpos
      (hasCol_false_names herf) (hasCol_false_names hflag)
      (fun x hx => by simp [hx])
      (fun x hx => by simp [hx])
    refine ⟨by rw [hb]; exact hE, by rw [hb]; exact hF, ?_⟩
    rw [hb]
    exact hasCol_filter_dropped _ _ _
      (fun x hx => by simp [hx])
  · intro hm hn
    have hpos := colLoc_le_length hn
    have hb : add_erf_type df =
        ((df.insertIdx (colLoc df "ERF (metal loss)")
            ("ERF", colVals df "ERF (metal loss)")) ++
          [("isNormalERF", List.replicate (numRows df) (boolCell true))]).filter
          (fun p => !(p.1 == "ERF (metal loss)")) := by
      simp only [add_erf_type, hm, hn]
      simp
    obtain ⟨hE, hF⟩ := colVals_surgery df _ _
      (fun p => !(p.1 == "ERF (metal loss)"))
      (colLoc df "ERF (metal loss)") hpos
      (hasCol_false_names herf) (hasCol_false_names hflag)
      (fun x hx => by simp [hx])
      (fun x hx => by simp [hx])
    refine ⟨by rw [hb]; exact hE, by rw [hb]; exact hF, ?_⟩
    rw [hb]
    exact hasCol_filter_dropped _ _ _
      (fun x hx => by simp [hx])

/-- Witness for C8 at a concrete table: both source columns present,
modified values `0.8, null`, normal values `null, 0.6` (as strings). -/
theorem c8_erf_merge_witness :
    colVals (add_erf_type
      [("ERF (Modified)", [Cell.str "0.8", Cell.null]),
       ("ERF (metal loss)", [Cell.null, Cell.str "0.6"])]) "ERF" =
      [Cell.str "0.8", Cell.str "0.6"] ∧
    colVals (add_erf_type
      [("ERF (Modified)", [Cell.str "0.8", Cell.null]),
       ("ERF (metal loss)", [Cell.null, Cell.str "0.6"])]) "isNormalERF" =
      [boolCell false, boolCell true] := by
  have h := (c8_erf_merge
    [("ERF (Modified)", [Cell.str "0.8", Cell.null]),
     ("ERF (metal loss)", [Cell.null, Cell.str "0.6"])]
    (by decide) (by decide)).1 (by decide) (by decide)
  exact ⟨h.1.trans (by decide), h.2.1.trans (by decide)⟩

/-! ## Helper lemmas: the reconciliation gate -/

theorem compare_ok_iff (temp data : List String) :
    (compare_arrays_with_alert temp data).1 = "OK" ↔
      (compare_arrays_with_alert temp data).2.2.2 = [] ∧
      (compare_arrays_with_alert temp data).2.1 = [] ∧
      (compare_arrays_with_alert temp data).2.2.1 = [] := by
  simp only [compare_arrays_with_alert]
  split
  · next hc => exact ⟨fun _ => ⟨hc.1, hc.2.1, hc.2.2⟩, fun _ => rfl⟩
  · next hc =>
    constructor
    · intro e
      exact absurd e (by decide)
    · intro e
      exact absurd ⟨e.1, e.2.1, e.2.2⟩ hc

theorem gateOf_cases (r : String × List String × List String × List String)
    (hok : r.1 = "OK" ↔ r.2.2.2 = [] ∧ r.2.1 = [] ∧ r.2.2.1 = []) :
    (r.2.1 ≠ [] ∨ r.2.2.2 ≠ [] → gateOf r = Gate.abort) ∧
    (r.2.1 = [] ∧ r.2.2.2 = [] → gateOf r = Gate.write) := by
  constructor
  · intro h
    have hne : r.1 ≠ "OK" := by
      intro e
      rcases h with h | h
      · exact h (hok.1 e).2.1
      · exact h (hok.1 e).1
    rw [gateOf, if_pos hne, if_pos h]
  · rintro ⟨h1, h2⟩
    by_cases he : r.2.2.1 = []
    · have hOK : r.1 = "OK" := hok.2 ⟨h2, h1, he⟩
      rw [gateOf, if_neg (by rw [hOK]; exact fun e => e rfl)]
    · have hne : r.1 ≠ "OK" := fun e => he (hok.1 e).2.2
      rw [gateOf, if_pos hne, if_neg (by push_neg; exact ⟨h1, h2⟩), if_pos he]

/-! ## Claim C1 -/

/-- C1: for a designated worksheet, persistence is gated on the
reconciliation outcome computed for that sheet: non-empty missing or
misspelled aborts the whole run with failure, the table unwritten and no
further worksheet processed; otherwise (including the only-true-extra
warning case) the table is written as-is and the loop continues with the
next worksheet. -/
theorem c1_persistence_gate (refs : Refs) (total i : Nat) (s : Sheet)
    (rest : List Sheet) (st : RunState)
    (hdes : s.name = "List of Pipe Tally" ∨ s.name = "List of Nominal Wall Thickness") :
    ((compare_arrays_with_alert (sheetRef refs s) (colNames (sheetTable s))).2.1 ≠ [] ∨
     (compare_arrays_with_alert (sheetRef refs s) (colNames (sheetTable s))).2.2.2 ≠ [] →
      runLoop refs total i (s :: rest) st =
        ⟨st.writes, st.progress,
         st.synths ++ [(s.name, set_specific_headers s.first s.second s.name)],
         Outcome.failure⟩) ∧
    ((compare_arrays_with_alert (sheetRef refs s) (colNames (sheetTable s))).2.1 = [] ∧
     (compare_arrays_with_alert (sheetRef refs s) (colNames (sheetTable s))).2.2.2 = [] →
      runLoop refs total i (s :: rest) st =
        runLoop refs total (i + 1) rest
          { writes := st.writes ++ [(s.name, sheetTable s)],
            progress := st.progress ++ [100 * i / total],
            synths := st.synths ++ [(s.name, set_specific_headers s.first s.second s.name)],
            checkPipe := if s.name = "List of Pipe Tally" then some true else st.checkPipe,
            checkNominal := if s.name = "List of Nominal Wall Thickness" then some true
              else st.checkNominal }) := by
  obtain ⟨nm, fr, sr, da⟩ := s
  rcases hdes with hname | hname <;> simp only at hname <;> subst hname
  · have hgate := gateOf_cases
      (compare_arrays_with_alert refs.pipeCols
        (colNames (pipeProcess ⟨"List of Pipe Tally", fr, sr, da⟩)))
      (compare_ok_iff _ _)
    constructor
    · intro h
      have ha := hgate.1 (by simpa [sheetRef, sheetTable] using h)
      simp [runLoop, sheetTable, sheetRef, applyGate, ha]
    · intro h
      have hw := hgate.2 (by simpa [sheetRef, sheetTable] using h)
      simp [runLoop, sheetTable, sheetRef, applyGate, hw]
  · have hgate := gateOf_cases
      (compare_arrays_with_alert refs.nomCols
        (colNames (synthDF ⟨"List of Nominal Wall Thickness", fr, sr, da⟩)))
      (compare_ok_iff _ _)
    constructor
    · intro h
      have ha := hgate.1 (by simpa [sheetRef, sheetTable] using h)
      simp [runLoop, sheetTable, sheetRef, applyGate, ha]
    · intro h
      have hw := hgate.2 (by simpa [sheetRef, sheetTable] using h)
      simp [runLoop, sheetTable, sheetRef, applyGate, hw]

/-- Witness for C1: a nominal-wall-thickness sheet whose only header `Q`
is classified misspelled against reference `A`, so the run aborts with
failure, nothing written. -/
theorem c1_persistence_gate_witness :
    runLoop ⟨["X"], ["A"]⟩ 1 1
      [⟨"List of Nominal Wall Thickness", [none], [some "Q"], [[]]⟩] initState =
      ⟨[], [], [("List of Nominal Wall Thickness", ["Q"])], Outcome.failure⟩ := by
  have h := (c1_persistence_gate ⟨["X"], ["A"]⟩ 1 1
    ⟨"List of Nominal Wall Thickness", [none], [some "Q"], [[]]⟩ [] initState
    (Or.inr rfl)).1 (by decide)
  exact h.trans (by decide)

/-! ## Helper lemmas: run-trace invariants -/

theorem endRun_eq (st : RunState) :
    (endRun st).writes = st.writes ∧ (endRun st).progress = st.progress ∧
    (endRun st).synths = st.synths := by
  rw [endRun]
  cases st.checkPipe with
  | none => exact ⟨rfl, rfl, rfl⟩
  | some b =>
    cases st.checkNominal with
    | none => exact ⟨rfl, rfl, rfl⟩
    | some c => exact ⟨rfl, rfl, rfl⟩

theorem applyGate_some {st st' : RunState} {n : String} {d : DF} {g : Gate}
    (h : applyGate st n d g = some st') :
    st' = st ∨ st' = { st with writes := st.writes ++ [(n, d)] } := by
  cases g with
  | abort => simp [applyGate] at h
  | write =>
    right
    simp only [applyGate, Option.some.injEq] at h
    exact h.symm
  | skip =>
    left
    simp only [applyGate, Option.some.injEq] at h
    exact h.symm

theorem runLoop_writes (refs : Refs) (total : Nat) :
    ∀ (sheets : List Sheet) (i : Nat) (st : RunState) (w : String × DF),
    w ∈ (runLoop refs total i sheets st).writes →
    w ∈ st.writes ∨ ∃ s ∈ sheets,
      w.1 = s.name ∧
      (s.name = "List of Pipe Tally" ∨ s.name = "List of Nominal Wall Thickness") ∧
      w.2 = sheetTable s := by
  intro sheets
  induction sheets with
  | nil =>
    intro i st w hw
    rw [runLoop, (endRun_eq st).1] at hw
    exact Or.inl hw
  | cons s rest ih =>
    intro i st w hw
    simp only [runLoop] at hw
    by_cases hp : s.name = "List of Pipe Tally"
    · rw [if_pos hp] at hw
      split at hw
      · exact Or.inl (by simpa using hw)
      · next st3 heq =>
        rcases ih (i + 1) _ w hw with h | ⟨s', hs', h1, h2, h3⟩
        · rcases applyGate_some heq with he | he
          · subst he
            exact Or.inl (by simpa using h)
          · subst he
            simp only [List.mem_append, List.mem_singleton] at h
            rcases h with h | h
            · exact Or.inl (by simpa using h)
            · refine Or.inr ⟨s, List.mem_cons_self s rest, ?_, Or.inl hp, ?_⟩
              · rw [h]
              · rw [h, sheetTable, if_pos hp]
        · exact Or.inr ⟨s', List.mem_cons_of_mem s hs', h1, h2, h3⟩
    · rw [if_neg hp] at hw
      by_cases hn : s.name = "List of Nominal Wall Thickness"
      · rw [if_pos hn] at hw
        split at hw
        · exact Or.inl (by simpa using hw)
        · next st3 heq =>
          rcases ih (i + 1) _ w hw with h | ⟨s', hs', h1, h2, h3⟩
          · rcases applyGate_some heq with he | he
            · subst he
              exact Or.inl (by simpa using h)
            · subst he
              simp only [List.mem_append, List.mem_singleton] at h
              rcases h with h | h
              · exact Or.inl (by simpa using h)
              · refine Or.inr ⟨s, List.mem_cons_self s rest, ?_, Or.inr hn, ?_⟩
                · rw [h]
                · rw [h, sheetTable, if_neg hp]
          · exact Or.inr ⟨s', List.mem_cons_of_mem s hs', h1, h2, h3⟩
      · rw [if_neg hn] at hw
        rcases ih (i + 1) _ w hw with h | ⟨s', hs', h1, h2, h3⟩
        · exact Or.inl (by simpa using h)
        · exact Or.inr ⟨s', List.mem_cons_of_mem s hs', h1, h2, h3⟩

theorem runLoop_progress (refs : Refs) (total : Nat) :
    ∀ (sheets : List Sheet) (i : Nat) (st : RunState), ∃ k ≤ sheets.length,
    (runLoop refs total i sheets st).progress =
      st.progress ++ (List.range' i k).map (fun j => 100 * j / total) := by
  intro sheets
  induction sheets with
  | nil =>
    intro i st
    exact ⟨0, Nat.le_refl 0, by simpa using (endRun_eq st).2.1⟩
  | cons s rest ih =>
    intro i st
    simp only [runLoop]
    by_cases hp : s.name = "List of Pipe Tally"
    · rw [if_pos hp]
      split
      · exact ⟨0, by omega, by simp⟩
      · next st3 heq =>
        obtain ⟨k, hk, he⟩ := ih (i + 1)
          { st3 with progress := st3.progress ++ [100 * i / total] }
        have hpr : st3.progress = st.progress := by
          rcases applyGate_some heq with he' | he' <;> rw [he']
        refine ⟨k + 1, by simpa using Nat.succ_le_succ hk, ?_⟩
        rw [he]
        simp only [hpr, List.range'_succ, List.map_cons]
        simp
    · rw [if_neg hp]
      by_cases hn : s.name = "List of Nominal Wall Thickness"
      · rw [if_pos hn]
        split
        · exact ⟨0, by omega, by simp⟩
        · next st3 heq =>
          obtain ⟨k, hk, he⟩ := ih (i + 1)
            { st3 with progress := st3.progress ++ [100 * i / total] }
          have hpr : st3.progress = st.progress := by
            rcases applyGate_some heq with he' | he' <;> rw [he']
          refine ⟨k + 1, by simpa using Nat.succ_le_succ hk, ?_⟩
          rw [he]
          simp only [hpr, List.range'_succ, List.map_cons]
          simp
      · rw [if_neg hn]
        obtain ⟨k, hk, he⟩ := ih (i + 1)
          { st with
              progress := st.progress ++ [100 * i / total]
              synths := st.synths ++ [(s.name, set_specific_headers s.first s.second s.name)] }
        refine ⟨k + 1, by simpa using Nat.succ_le_succ hk, ?_⟩
        rw [he]
        simp only [List.range'_succ, List.map_cons]
        simp

theorem runLoop_synths (refs : Refs) (total : Nat) :
    ∀ (sheets : List Sheet) (i : Nat) (st : RunState), ∃ k ≤ sheets.length,
    (runLoop refs total i sheets st).synths =
      st.synths ++ (sheets.take k).map
        (fun s => (s.name, set_specific_headers s.first s.second s.name)) := by
  intro sheets
  induction sheets with
  | nil =>
    intro i st
    exact ⟨0, Nat.le_refl 0, by simpa using (endRun_eq st).2.2⟩
  | cons s rest ih =>
    intro i st
    simp only [runLoop]
    by_cases hp : s.name = "List of Pipe Tally"
    · rw [if_pos hp]
      split
      · refine ⟨1, by simp, ?_⟩
        simp
      · next st3 heq =>
        obtain ⟨k, hk, he⟩ := ih (i + 1)
          { st3 with progress := st3.progress ++ [100 * i / total] }
        have hsy : st3.synths =
            st.synths ++ [(s.name, set_specific_headers s.first s.second s.name)] := by
          rcases applyGate_some heq with he' | he' <;> rw [he']
        refine ⟨k + 1, by simpa using Nat.succ_le_succ hk, ?_⟩
        rw [he]
        simp only [hsy, List.take_succ_cons, List.map_cons]
        simp
    · rw [if_neg hp]
      by_cases hn : s.name = "List of Nominal Wall Thickness"
      · rw [if_pos hn]
        split
        · refine ⟨1, by simp, ?_⟩
          simp
        · next st3 heq =>
          obtain ⟨k, hk, he⟩ := ih (i + 1)
            { st3 with progress := st3.progress ++ [100 * i / total] }
          have hsy : st3.synths =
              st.synths ++ [(s.name, set_specific_headers s.first s.second s.name)] := by
            rcases applyGate_some heq with he' | he' <;> rw [he']
          refine ⟨k + 1, by simpa using Nat.succ_le_succ hk, ?_⟩
          rw [he]
          simp only [hsy, List.take_succ_cons, List.map_cons]
          simp
      · rw [if_neg hn]
        obtain ⟨k, hk, he⟩ := ih (i + 1)
          { st with
              progress := st.progress ++ [100 * i / total]
              synths := st.synths ++ [(s.name, set_specific_headers s.first s.second s.name)] }
        refine ⟨k + 1, by simpa using Nat.succ_le_succ hk, ?_⟩
        rw [he]
        simp only [List.take_succ_cons, List.map_cons]
        simp

theorem chain_le_map_range' (f : Nat → Nat) (hf : ∀ n, f n ≤ f (n + 1)) :
    ∀ (k start : Nat), List.Chain' (fun a b => a ≤ b) ((List.range' start k).map f) := by
  intro k
  induction k with
  | zero => intro start; simp
  | succ k ih =>
    intro start
    rw [List.range'_succ, List.map_cons, List.chain'_cons']
    refine ⟨?_, ih (start + 1)⟩
    intro y hy
    cases k with
    | zero => simp at hy
    | succ k' =>
      rw [List.range'_succ, List.map_cons] at hy
      simp only [List.head?_cons, Option.mem_def, Option.some.injEq] at hy
      rw [← hy]
      exact hf start

/-! ## Claim C4 -/

/-- C4 (counterexample): the claimed stage order is wrong for the
nominal-wall-thickness sheet: a nominal sheet whose headers include
`ERF (metal loss)` is persisted with that column intact — the
measurement merge (which would have removed it, as the second conjunct
shows) and the column coercion are never applied to that sheet. -/
theorem c4_pipeline_order_counterexample :
    (run ⟨["X"], ["ERF (metal loss)", "B"]⟩
        [⟨"List of Nominal Wall Thickness", [none, none],
           [some "ERF (metal loss)", some "B"], [[], []]⟩,
         ⟨"List of Pipe Tally", [none], [some "X"], [[]]⟩]).writes =
      [("List of Nominal Wall Thickness", [("ERF (metal loss)", []), ("B", [])]),
       ("List of Pipe Tally", [("X", [])])] ∧
    (run ⟨["X"], ["ERF (metal loss)", "B"]⟩
        [⟨"List of Nominal Wall Thickness", [none, none],
           [some "ERF (metal loss)", some "B"], [[], []]⟩,
         ⟨"List of Pipe Tally", [none], [some "X"], [[]]⟩]).outcome = Outcome.success ∧
    colNames (add_erf_type (synthDF ⟨"List of Nominal Wall Thickness", [none, none],
        [some "ERF (metal loss)", some "B"], [[], []]⟩)) = ["ERF", "B", "isNormalERF"] := by
  refine ⟨by decide, by decide, by decide⟩

/-- C4 (amended): per designated worksheet the stages run as header
synthesis first, then — for the pipe-tally sheet only — measurement
merge followed by column coercion, then reconciliation and the
write/reject decision on that processed table; the nominal sheet is
reconciled and persisted as synthesized, with neither merge nor coercion
applied.  Accordingly every persisted pipe-tally table is exactly
`convert_data_types (dropIsNormal (add_erf_type (synthDF s)))` and every
persisted nominal table is exactly `synthDF s`. -/
theorem c4_pipeline_order_amended (refs : Refs) (sheets : List Sheet) :
    ∀ w : String × DF, w ∈ (run refs sheets).writes →
      ∃ s ∈ sheets, w.1 = s.name ∧
        ((s.name = "List of Pipe Tally" ∧
          w.2 = convert_data_types (dropIsNormal (add_erf_type (synthDF s)))) ∨
         (s.name = "List of Nominal Wall Thickness" ∧ w.2 = synthDF s)) := by
  intro w hw
  rcases runLoop_writes refs sheets.length sheets 1 initState w hw with h | ⟨s, hs, h1, h2, h3⟩
  · simp [initState] at h
  · refine ⟨s, hs, h1, ?_⟩
    rcases h2 with h2 | h2
    · exact Or.inl ⟨h2, by rw [h3, sheetTable, if_pos h2, pipeProcess]⟩
    · refine Or.inr ⟨h2, ?_⟩
      rw [h3, sheetTable, if_neg (by rw [h2]; decide)]

/-- Witness for C4 (amended), applied to the counterexample run's
nominal-sheet write. -/
theorem c4_pipeline_order_amended_witness :
    ∃ s ∈ [(⟨"List of Nominal Wall Thickness", [none, none],
             [some "ERF (metal loss)", some "B"], [[], []]⟩ : Sheet),
           ⟨"List of Pipe Tally", [none], [some "X"], [[]]⟩],
      ("List of Nominal Wall Thickness" : String) = s.name ∧
        ((s.name = "List of Pipe Tally" ∧
          ([("ERF (metal loss)", []), ("B", [])] : DF) =
            convert_data_types (dropIsNormal (add_erf_type (synthDF s)))) ∨
         (s.name = "List of Nominal Wall Thickness" ∧
          ([("ERF (metal loss)", []), ("B", [])] : DF) = synthDF s)) :=
  c4_pipeline_order_amended ⟨["X"], ["ERF (metal loss)", "B"]⟩
    [⟨"List of Nominal Wall Thickness", [none, none],
       [some "ERF (metal loss)", some "B"], [[], []]⟩,
     ⟨"List of Pipe Tally", [none], [some "X"], [[]]⟩]
    ("List of Nominal Wall Thickness", [("ERF (metal loss)", []), ("B", [])])
    (by decide)

/-! ## Claim C5 -/

/-- C5 (code behavior): when a designated sheet kind is absent the run
does not reach a successful end: the end-of-run check reads the Python
local `check_List_Pipe` / `check_List_Nominal`, whose initializations
are commented out, so the function raises `UnboundLocalError` (modelled
as `Outcome.crash`) instead of printing the advisory and returning
success; with both designated sheets present the same run succeeds. -/
theorem c5_missing_sheet_code_behavior :
    (run ⟨["X"], ["Y"]⟩ [⟨"Summary", [none], [some "A"], [[]]⟩]).outcome =
      Outcome.crash ∧
    (run ⟨["X"], ["Y"]⟩ [⟨"List of Pipe Tally", [none], [some "X"], [[]]⟩]).outcome =
      Outcome.crash ∧
    (run ⟨["X"], ["Y"]⟩
      [⟨"List of Pipe Tally", [none], [some "X"], [[]]⟩,
       ⟨"List of Nominal Wall Thickness", [none], [some "Y"], [[]]⟩]).outcome =
      Outcome.success := by
  refine ⟨by decide, by decide, by decide⟩

/-! ## Claim C9 -/

/-- C9 (counterexample): the reported progress is the truncation
`int((i / total) * 100)`, not `round(100 * i / total)`: after 2 of 3
sheets the code reports 66 while the claimed formula gives 67. -/
theorem c9_progress_counterexample :
    (run ⟨["X"], ["Y"]⟩
      [⟨"a", [], [], []⟩, ⟨"b", [], [], []⟩, ⟨"c", [], [], []⟩]).progress =
      [33, 66, 100] ∧
    round ((100 * 2 : ℚ) / 3) = 67 ∧ (66 : ℤ) ≠ 67 := by
  refine ⟨by decide, ?_, by decide⟩
  rw [round_eq, Int.floor_eq_iff]
  norm_num

/-- C9 (amended): after each processed worksheet the reported progress
value is ⌊100·i / total⌋ (the integer truncation the source computes,
floats idealized as exact arithmetic), and the reported sequence is
monotonically non-decreasing. -/
theorem c9_progress_amended (refs : Refs) (sheets : List Sheet) :
    (∃ k ≤ sheets.length,
      (run refs sheets).progress =
        (List.range' 1 k).map (fun j => 100 * j / sheets.length)) ∧
    List.Chain' (fun a b => a ≤ b) (run refs sheets).progress := by
  obtain ⟨k, hk, he⟩ := runLoop_progress refs sheets.length sheets 1 initState
  have he' : (run refs sheets).progress =
      (List.range' 1 k).map (fun j => 100 * j / sheets.length) := by
    rw [run, he]
    rfl
  refine ⟨⟨k, hk, he'⟩, ?_⟩
  rw [he']
  exact chain_le_map_range' _
    (fun n => Nat.div_le_div_right (by omega)) k 1

/-! ## Claim C10 -/

/-- C10: every write the run performs is under one of the two designated
sheet names — no other worksheet's table is ever persisted — while every
processed worksheet (designated or not, up to an abort) does get its
headers synthesized. -/
theorem c10_only_designated_writes (refs : Refs) (sheets : List Sheet) :
    (∀ w : String × DF, w ∈ (run refs sheets).writes →
      w.1 = "List of Pipe Tally" ∨ w.1 = "List of Nominal Wall Thickness") ∧
    (∃ k ≤ sheets.length, (run refs sheets).synths =
      (sheets.take k).map
        (fun s => (s.name, set_specific_headers s.first s.second s.name))) := by
  constructor
  · intro w hw
    rcases runLoop_writes refs sheets.length sheets 1 initState w hw with
      h | ⟨s, _, h1, h2, _⟩
    · simp [initState] at h
    · rw [h1]
      exact h2
  · obtain ⟨k, hk, he⟩ := runLoop_synths refs sheets.length sheets 1 initState
    exact ⟨k, hk, by rw [run] at *; rw [he]; rfl⟩

/-- Witness for C10 at a concrete run containing one pipe-tally write. -/
theorem c10_only_designated_writes_witness :
    ("List of Pipe Tally" : String) = "List of Pipe Tally" ∨
      ("List of Pipe Tally" : String) = "List of Nominal Wall Thickness" :=
  (c10_only_designated_writes ⟨["X"], ["Y"]⟩
    [⟨"List of Pipe Tally", [none], [some "X"], [[]]⟩]).1
    ("List of Pipe Tally", [("X", [])]) (by decide)
